import Mathlib

/-!
Verification of the incremental Notion → Supabase sync engine.

This file shallowly embeds the JavaScript sources of the sync engine
(`src/utils/dataTransformer.js`, `src/utils/schemaManager.js`,
`src/utils/retry.js`, `src/utils/syncState.js`,
`src/services/notionService.js`, `src/services/supabaseService.js`
and the orchestrator `NotionSupabaseSync.sync` in `src/index.js`) and
proves or refutes the specification's claims about them.

Modelling conventions:
* JavaScript runtime values are modelled by the inductive type `JsVal`
  (`undefined`, `null`, booleans, numbers as exact rationals, strings,
  arrays, objects as ordered key/value lists).
* A thrown-and-caught exception inside a function is modelled by an
  `Option` result (`none` = the body threw before producing a value).
* Network effects (Notion queries, Supabase reads/writes) are modelled
  by explicit outcome parameters (`Except`, probe types, response
  lengths) threaded into the embedded functions, plus instrumentation
  fields recording which destructive statements would be issued.
-/

/-- JavaScript value model: undefined, null, booleans, numbers (exact
rationals; NaN and float rounding are not modelled, no claim depends on
them), strings, arrays and objects (ordered association lists). -/
inductive JsVal : Type where
  | undefined : JsVal
  | nul : JsVal
  | bool (b : Bool) : JsVal
  | num (q : ℚ) : JsVal
  | str (s : String) : JsVal
  | arr (xs : List JsVal) : JsVal
  | obj (fields : List (String × JsVal)) : JsVal

/-- JavaScript truthiness: `undefined`, `null`, `false`, `0` and `""` are
falsy; every array and object is truthy. -/
def truthy : JsVal → Bool
  | .undefined => false
  | .nul => false
  | .bool b => b
  | .num q => decide (q ≠ 0)
  | .str s => decide (s ≠ "")
  | .arr _ => true
  | .obj _ => true

/-- Whether a value is `null` or `undefined` (the two values the code's
`value !== null && value !== undefined` filters remove). -/
def isNullish : JsVal → Bool
  | .nul => true
  | .undefined => true
  | _ => false

/-- Property access `v.k` / `v?.k` in the places where it cannot throw:
object lookup (first matching key), `undefined` on primitives and on
missing keys, and `undefined` for `null?.k` / `undefined?.k`. -/
def jsGetD (v : JsVal) (k : String) : JsVal :=
  match v with
  | .obj fields =>
    match fields.find? (fun kv => kv.1 = k) with
    | some kv => kv.2
    | none => .undefined
  | _ => .undefined

/-- JavaScript `a || b`: `a` if truthy, else `b`. -/
def jsOr (a b : JsVal) : JsVal := if truthy a then a else b

/-- String coercion used by `Array.prototype.join`: strings unchanged,
`null`/`undefined` become `""`. Coercion of the remaining shapes (numbers,
booleans, nested arrays/objects) is abstracted to a fixed rendering; the
source only ever joins `plain_text` string fragments, and no claim
depends on the other shapes. -/
def jsJoinStr : JsVal → String
  | .str s => s
  | .nul => ""
  | .undefined => ""
  | .bool b => if b then "true" else "false"
  | .num q => toString q
  | .arr _ => ""
  | .obj _ => "[object Object]"

/-- JavaScript object assignment `o[k] = v`: overwrite the value at the
first occurrence of `k`, or append `(k, v)` at the end. This is also the
semantics of a later entry in an object literal / spread. -/
def setKey {α : Type} : List (String × α) → String → α → List (String × α)
  | [], k, v => [(k, v)]
  | (k', v') :: rest, k, v =>
    if k' = k then (k', v) :: rest else (k', v') :: setKey rest k v

/-- Model of `Object.entries(v)`: `none` models the TypeError thrown on `null` and
`undefined`; objects give their field list; numbers and booleans have no
own enumerable properties; strings and arrays enumerate by index. -/
def jsEntries : JsVal → Option (List (String × JsVal))
  | .obj fields => some fields
  | .nul => none
  | .undefined => none
  | .num _ => some []
  | .bool _ => some []
  | .str s =>
    some (((List.range s.length).zip s.data).map
      (fun z => (toString z.1, JsVal.str (String.singleton z.2))))
  | .arr xs =>
    some (((List.range xs.length).zip xs).map (fun z => (toString z.1, z.2)))

/-- Character class of the regex `[^a-z0-9]` in
`SchemaManager.convertToSnakeCase` (its input was lowercased first). -/
def isLowerAlnum (c : Char) : Bool :=
  ('a' ≤ c && c ≤ 'z') || ('0' ≤ c && c ≤ '9')

/-- One character of `convertToSnakeCase`'s sanitizing pass: keep
lowercase alphanumerics, replace anything else by an underscore
(regex `/[^a-z0-9]/g` → `'_'`). -/
def jsSanitizeChar (c : Char) : Char := if isLowerAlnum c then c else '_'

/-- The regex `/_+/g → '_'` pass: collapse each run of underscores to a
single underscore. -/
def collapseUnderscores : List Char → List Char
  | [] => []
  | [c] => [c]
  | c1 :: c2 :: rest =>
    if c1 = '_' && c2 = '_' then collapseUnderscores (c2 :: rest)
    else c1 :: collapseUnderscores (c2 :: rest)

/-- The `^_` half of the regex `/^_|_$/g → ''`: drop one leading
underscore if present. -/
def dropLeadingUnderscore : List Char → List Char
  | [] => []
  | c :: rest => if c = '_' then rest else c :: rest

/-- The `_$` half of the regex `/^_|_$/g → ''`: drop one trailing
underscore if present. -/
def dropTrailingUnderscore : List Char → List Char
  | [] => []
  | [c] => if c = '_' then [] else [c]
  | c :: rest => c :: dropTrailingUnderscore rest

/-- From `schemaManager.js` (`SchemaManager.convertToSnakeCase`):
lowercase, replace each non-alphanumeric character by `_`, collapse
underscore runs, strip one leading and one trailing underscore
(at most one of each can remain after collapsing). -/
def convertToSnakeCase (propertyName : String) : String :=
  String.mk (dropTrailingUnderscore (dropLeadingUnderscore (collapseUnderscores
    ((propertyName.data.map Char.toLower).map jsSanitizeChar))))

/-- From `dataTransformer.js` (`extractTextContent`): concatenate the
`plain_text` fragments (`textObj?.plain_text || ''`), join and trim;
non-arrays give the empty string. -/
def extractTextContent (textArray : JsVal) : JsVal :=
  match textArray with
  | .arr xs =>
    .str (String.trim (String.join
      (xs.map (fun textObj => jsJoinStr (jsOr (jsGetD textObj "plain_text") (.str ""))))))
  | _ => .str ""

/-- From `dataTransformer.js` (`transformFiles`): map each file entry to
its external or hosted URL and drop falsy entries (`.filter(Boolean)`).
`none` models the TypeError from `file.type` on a `null`/`undefined`
element (caught by `transformNotionProperty`). -/
def transformFileEntry (file : JsVal) : Option JsVal :=
  match file with
  | .nul => none
  | .undefined => none
  | _ =>
    match jsGetD file "type" with
    | .str "external" => some (jsOr (jsGetD (jsGetD file "external") "url") .nul)
    | .str "file" => some (jsOr (jsGetD (jsGetD file "file") "url") .nul)
    | _ => some .nul

/-- From `dataTransformer.js` (`transformFiles`): map each file entry to
its external or hosted URL and drop falsy entries (`.filter(Boolean)`);
non-arrays give the empty array. -/
def transformFiles (files : JsVal) : Option JsVal :=
  match files with
  | .arr xs =>
    (xs.mapM transformFileEntry).map (fun urls => JsVal.arr (urls.filter truthy))
  | _ => some (.arr [])

/-- From `dataTransformer.js` (`transformPeople`): `person?.id || null`
per entry, dropping falsy entries; non-arrays give the empty array. -/
def transformPeople (people : JsVal) : JsVal :=
  match people with
  | .arr xs =>
    .arr ((xs.map (fun person => jsOr (jsGetD person "id") .nul)).filter truthy)
  | _ => .arr []

/-- From `dataTransformer.js` (`transformFormula`): dispatch on the
formula's own result type with the same defaulting operators as the
primitive branches. -/
def transformFormula (formula : JsVal) : JsVal :=
  if truthy formula = false then .nul
  else
    match jsGetD formula "type" with
    | .str "string" => jsOr (jsGetD formula "string") (.str "")
    | .str "number" => jsOr (jsGetD formula "number") .nul
    | .str "boolean" => jsOr (jsGetD formula "boolean") (.bool false)
    | .str "date" => jsOr (jsGetD (jsGetD formula "date") "start") .nul
    | _ => .nul

/-- One element of `v?.map(item => item.field)`: plain `.field` access,
which throws (`none`) on a `null`/`undefined` element. -/
def jsGetItemField (field : String) (item : JsVal) : Option JsVal :=
  match item with
  | .nul => none
  | .undefined => none
  | _ => some (jsGetD item field)

/-- Model of `v?.map(item => item.field)`: `undefined` when `v` is
nullish, the mapped array when `v` is an array (`none` on a
`null`/`undefined` element, whose `.field` access throws), and `none`
(TypeError: not a function) on any other truthy value. -/
def jsOptChainMapField (v : JsVal) (field : String) : Option JsVal :=
  match v with
  | .nul => some .undefined
  | .undefined => some .undefined
  | .arr xs => (xs.mapM (jsGetItemField field)).map JsVal.arr
  | _ => none

mutual

/-- From `dataTransformer.js` (`transformNotionProperty`): falsy inputs
give `null`; otherwise the body dispatches on the `type` tag, and the
surrounding `try`/`catch` turns any thrown error into `null`. -/
def transformNotionProperty (p : JsVal) : JsVal :=
  if truthy p = false then .nul
  else
    match transformNotionPropertyBody p with
    | some v => v
    | none => .nul
termination_by (sizeOf p, 2)
decreasing_by
  exact Prod.Lex.right _ (by omega)

/-- The `switch (type)` body of `transformNotionProperty`; `none` models
a thrown (and later caught) error. -/
def transformNotionPropertyBody (p : JsVal) : Option JsVal :=
  match jsGetD p "type" with
  | .str "title" => some (extractTextContent (jsGetD p "title"))
  | .str "rich_text" => some (extractTextContent (jsGetD p "rich_text"))
  | .str "select" => some (jsOr (jsGetD (jsGetD p "select") "name") .nul)
  | .str "multi_select" =>
    (jsOptChainMapField (jsGetD p "multi_select") "name").map (fun v => jsOr v (.arr []))
  | .str "date" => some (jsOr (jsGetD (jsGetD p "date") "start") .nul)
  | .str "checkbox" => some (jsOr (jsGetD p "checkbox") (.bool false))
  | .str "number" => some (jsOr (jsGetD p "number") .nul)
  | .str "url" => some (jsOr (jsGetD p "url") .nul)
  | .str "email" => some (jsOr (jsGetD p "email") .nul)
  | .str "phone_number" => some (jsOr (jsGetD p "phone_number") .nul)
  | .str "files" => transformFiles (jsGetD p "files")
  | .str "people" => some (transformPeople (jsGetD p "people"))
  | .str "relation" =>
    (jsOptChainMapField (jsGetD p "relation") "id").map (fun v => jsOr v (.arr []))
  | .str "formula" => some (transformFormula (jsGetD p "formula"))
  | .str "rollup" => transformRollup (jsGetD p "rollup")
  | .str "created_time" => some (jsOr (jsGetD p "created_time") .nul)
  | .str "created_by" => some (jsOr (jsGetD (jsGetD p "created_by") "id") .nul)
  | .str "last_edited_time" => some (jsOr (jsGetD p "last_edited_time") .nul)
  | .str "last_edited_by" => some (jsOr (jsGetD (jsGetD p "last_edited_by") "id") .nul)
  | .str "status" => some (jsOr (jsGetD (jsGetD p "status") "name") .nul)
  | _ => some .nul
termination_by (sizeOf p, 1)
decreasing_by
  have hle : sizeOf (jsGetD p "rollup") ≤ sizeOf p := by
    cases p with
    | obj fields =>
      simp only [jsGetD]
      cases hf : fields.find? (fun kv => kv.1 = "rollup") with
      | none => simp
      | some kv =>
        have hmem := List.mem_of_find?_eq_some hf
        have h1 : sizeOf kv < sizeOf fields := List.sizeOf_lt_of_mem hmem
        have h2 : sizeOf kv.2 < sizeOf kv := by cases kv; simp
        simp only [JsVal.obj.sizeOf_spec]
        omega
    | undefined => simp [jsGetD]
    | nul => simp [jsGetD]
    | bool b => simp [jsGetD]
    | num q => simp [jsGetD]
    | str s => simp [jsGetD]
    | arr xs => simp [jsGetD]
  rcases lt_or_eq_of_le hle with h | h
  · exact Prod.Lex.left _ _ h
  · rw [h]
    exact Prod.Lex.right _ (by omega)

/-- From `dataTransformer.js` (`transformRollup`): array rollups map each
element back through `transformNotionProperty`; `number`/`date` use the
primitive rules; `none` models the TypeError of `.map` on a non-array
truthy `array` field. -/
def transformRollup (r : JsVal) : Option JsVal :=
  if truthy r = false then some .nul
  else
    match jsGetD r "type" with
    | .str "array" =>
      match harr : jsGetD r "array" with
      | .nul => some (jsOr .undefined (.arr []))
      | .undefined => some (jsOr .undefined (.arr []))
      | .arr xs =>
        some (jsOr (.arr (xs.attach.map (fun z => transformNotionProperty z.1))) (.arr []))
      | _ => none
    | .str "number" => some (jsOr (jsGetD r "number") .nul)
    | .str "date" => some (jsOr (jsGetD (jsGetD r "date") "start") .nul)
    | _ => some .nul
termination_by (sizeOf r, 0)
decreasing_by
  refine Prod.Lex.left _ _ ?_
  have h1 : sizeOf z.1 < sizeOf (JsVal.arr xs) := by
    have := List.sizeOf_lt_of_mem z.2
    simp only [JsVal.arr.sizeOf_spec]
    omega
  rw [← harr] at h1
  have h2 : sizeOf (jsGetD r "array") ≤ sizeOf r := by
    cases r with
    | obj fields =>
      simp only [jsGetD]
      cases hf : fields.find? (fun kv => kv.1 = "array") with
      | none => simp
      | some kv =>
        have hmem := List.mem_of_find?_eq_some hf
        have ha : sizeOf kv < sizeOf fields := List.sizeOf_lt_of_mem hmem
        have hb : sizeOf kv.2 < sizeOf kv := by cases kv; simp
        simp only [JsVal.obj.sizeOf_spec]
        omega
    | undefined => simp [jsGetD]
    | nul => simp [jsGetD]
    | bool b => simp [jsGetD]
    | num q => simp [jsGetD]
    | str s => simp [jsGetD]
    | arr ys => simp [jsGetD]
  omega

end

/-- From `dataTransformer.js` (`transformNotionPage`): destructure the
page, transform every property (omitting those whose transformed value is
`null`), keep non-system non-nullish extra fields, assemble the row and
strip all remaining `null`/`undefined` values. `none` models the rethrown
error on a page whose shape makes the body throw (non-object page or
nullish `properties`). -/
def transformNotionPage (notionPage : JsVal) : Option JsVal :=
  match notionPage with
  | .obj fields =>
    let id := jsGetD (.obj fields) "id"
    let created_time := jsGetD (.obj fields) "created_time"
    let last_edited_time := jsGetD (.obj fields) "last_edited_time"
    let properties := jsGetD (.obj fields) "properties"
    let otherProps := fields.filter (fun kv =>
      !(kv.1 = "id" || kv.1 = "created_time" || kv.1 = "last_edited_time" || kv.1 = "properties"))
    match jsEntries properties with
    | none => none
    | some props =>
      let transformedProperties := props.foldl (fun acc kv =>
        match transformNotionProperty kv.2 with
        | .nul => acc
        | tv => setKey acc (convertToSnakeCase kv.1) tv) []
      let systemFields : List String :=
        ["archived", "icon", "cover", "parent", "object", "type",
         "created_by", "last_edited_by", "in_trash", "url", "public_url"]
      let filteredOtherProps := otherProps.filter (fun kv =>
        !(systemFields.contains kv.1) && !(isNullish kv.2))
      let base : List (String × JsVal) :=
        [("notion_id", id), ("created_at", created_time),
         ("updated_at", last_edited_time), ("last_edited_time", last_edited_time)]
      let transformedData :=
        (transformedProperties ++ filteredOtherProps).foldl
          (fun acc kv => setKey acc kv.1 kv.2) base
      some (.obj (transformedData.filter (fun kv => !(isNullish kv.2))))
  | _ => none

/-- From `dataTransformer.js` (`validateTransformedData`): reject
non-objects (arrays pass the `typeof` test but have no `notion_id`),
then require a truthy `notion_id`. -/
def validateTransformedData (data : JsVal) : Bool :=
  match data with
  | .obj _ => truthy (jsGetD data "notion_id")
  | .arr _ => truthy (jsGetD data "notion_id")
  | _ => false

/-- From `schemaManager.js` (`SchemaManager.mapNotionTypeToSupabaseType`):
the fixed Notion-type → Postgres-type table; unknown types default to
`TEXT` (with a warning). -/
def mapNotionTypeToSupabaseType (notionType : String) : String :=
  match notionType with
  | "title" => "TEXT"
  | "rich_text" => "TEXT"
  | "select" => "TEXT"
  | "url" => "TEXT"
  | "email" => "TEXT"
  | "phone_number" => "TEXT"
  | "created_by" => "TEXT"
  | "last_edited_by" => "TEXT"
  | "status" => "TEXT"
  | "multi_select" => "TEXT[]"
  | "people" => "TEXT[]"
  | "relation" => "TEXT[]"
  | "files" => "TEXT[]"
  | "date" => "TIMESTAMP WITH TIME ZONE"
  | "created_time" => "TIMESTAMP WITH TIME ZONE"
  | "last_edited_time" => "TIMESTAMP WITH TIME ZONE"
  | "checkbox" => "BOOLEAN"
  | "number" => "NUMERIC"
  | "formula" => "TEXT"
  | "rollup" => "TEXT"
  | _ => "TEXT"

/-- A column definition as built by
`SchemaManager.extractColumnDefinitions`: normalized destination name,
destination type, originating property name and originating Notion type
tag. -/
structure ColumnDefinition where
  name : String
  type : String
  originalName : String
  notionType : String
deriving DecidableEq

/-- The string type tag of a property config; a non-string `type` field
is collapsed to `""`, which the type-mapping switch treats exactly like
any other unknown tag (default `TEXT`). -/
def jsTypeTag (v : JsVal) : String :=
  match v with
  | .str s => s
  | _ => ""

/-- From `schemaManager.js` (`SchemaManager.extractColumnDefinitions`):
one column definition per property of the schema's `properties` object;
a nullish property config throws inside the per-entry `try` (accessing
`.type`) and the entry is skipped. -/
def extractColumnDefinitions (databaseSchema : JsVal) : List ColumnDefinition :=
  if truthy databaseSchema = false then []
  else
    let props := jsGetD databaseSchema "properties"
    if truthy props = false then []
    else
      match jsEntries props with
      | none => []
      | some entries =>
        entries.foldl (fun columns kv =>
          match kv.2 with
          | .nul => columns
          | .undefined => columns
          | propertyConfig =>
            let tag := jsTypeTag (jsGetD propertyConfig "type")
            columns ++ [⟨convertToSnakeCase kv.1, mapNotionTypeToSupabaseType tag, kv.1, tag⟩]) []

/-- From `schemaManager.js` (`SchemaManager.getMissingColumns`): the
entries of `requiredColumns` whose name is not in `existingColumns`. -/
def getMissingColumns (requiredColumns : List ColumnDefinition)
    (existingColumns : List String) : List ColumnDefinition :=
  requiredColumns.filter (fun column => !(existingColumns.contains column.name))

/-- From `schemaManager.js` (`SchemaManager.generateAlterTableStatements`):
one additive `ALTER TABLE ... ADD COLUMN IF NOT EXISTS` statement per
column definition. -/
def generateAlterTableStatements (tableName : String)
    (columnDefinitions : List ColumnDefinition) : List String :=
  columnDefinitions.map (fun column =>
    "ALTER TABLE " ++ tableName ++ " ADD COLUMN IF NOT EXISTS " ++ column.name ++ " " ++ column.type)

/-- From `schemaManager.js` (`SchemaManager.validateColumnDefinitions`):
every definition must have a truthy (non-empty) name and type; reserved
keywords only produce a warning. -/
def validateColumnDefinitions (columnDefinitions : List ColumnDefinition) : Bool :=
  columnDefinitions.all (fun column => !(column.name = "") && !(column.type = ""))

/-- Outcome of the single-row probe used by
`SchemaManager.getExistingColumns`: the table is missing (error `42P01`),
exists but holds no rows, returned a sample row with the given keys, or
the probe errored. -/
inductive TableProbe : Type where
  | missing : TableProbe
  | empty : TableProbe
  | sampled (keys : List String) : TableProbe
  | errored : TableProbe
deriving DecidableEq

/-- The base-column fallback used by `SchemaManager.getExistingColumns`
for an empty table and on probe errors. -/
def baseColumns : List String := ["id", "notion_id", "created_at", "updated_at"]

/-- From `schemaManager.js` (`SchemaManager.getExistingColumns`): `[]`
when the table does not exist; the keys of the sampled first row when one
exists; the fixed base-column set when the table is empty or the probe
errors. The Supabase read itself is abstracted into the `TableProbe`
outcome. -/
def getExistingColumns (probe : TableProbe) : List String :=
  match probe with
  | .missing => []
  | .empty => baseColumns
  | .sampled keys => keys
  | .errored => baseColumns

/-- From `schemaManager.js` (`SchemaManager.createSchemaSummary`). -/
structure SchemaSummary where
  totalColumns : Nat
  existingColumns : Nat
  newColumns : Nat
  columnsToCreate : List (String × String × String)
deriving DecidableEq

def createSchemaSummary (missingColumns : List ColumnDefinition)
    (existingColumns : List String) : SchemaSummary :=
  ⟨existingColumns.length + missingColumns.length,
   existingColumns.length,
   missingColumns.length,
   missingColumns.map (fun col => (col.name, col.type, col.originalName))⟩

/-- Result of `SupabaseService.createMissingColumns`. `missing` is absent
(`none`) on the early no-missing-columns return; `statements` instruments
the ALTER statements actually issued through `exec_sql` (the code's
`errors.length > 0 ? errors : undefined` is modelled as a plain list). -/
structure ColumnCreationResult where
  success : Bool
  created : Nat
  existing : Nat
  missing : Option Nat
  errors : List (String × String)
  summary : SchemaSummary
  statements : List String
deriving DecidableEq

/-- From `supabaseService.js` (`SupabaseService.createMissingColumns`):
extract required columns, validate (throwing on failure), probe existing
columns, diff, early-return when nothing is missing, otherwise issue one
ALTER statement per missing column, tolerating per-statement failures
(`execFails` is the set of statements whose `exec_sql` call errors). -/
def createMissingColumns (databaseSchema : JsVal) (probe : TableProbe)
    (execFails : List String) (tableName : String) :
    Except String ColumnCreationResult :=
  let requiredColumns := extractColumnDefinitions databaseSchema
  if validateColumnDefinitions requiredColumns = false then
    .error "Invalid column definitions"
  else
    let existingColumns := getExistingColumns probe
    let missingColumns := getMissingColumns requiredColumns existingColumns
    if missingColumns.isEmpty then
      .ok ⟨true, 0, existingColumns.length, none, [],
           createSchemaSummary missingColumns existingColumns, []⟩
    else
      let alterStatements := generateAlterTableStatements tableName missingColumns
      let createdCount := (alterStatements.filter (fun s => !(execFails.contains s))).length
      let errors := (alterStatements.filter (fun s => execFails.contains s)).map
        (fun s => (s, "execution failed"))
      .ok ⟨decide (0 < createdCount), createdCount, existingColumns.length,
           some (missingColumns.length - createdCount), errors,
           createSchemaSummary missingColumns existingColumns, alterStatements⟩

/-- From `retry.js` (`RetryManager.calculateDelay`): exponential backoff
with up to 10 percent jitter, capped at 30000 ms. `rand` models the
`Math.random()` draw, a value in `[0, 1)`; JavaScript float arithmetic is
modelled exactly over the rationals. -/
def calculateDelay (attempt : Nat) (baseDelay : ℚ) (rand : ℚ) : ℚ :=
  let exponentialDelay := baseDelay * 2 ^ attempt
  let jitter := rand * (1 / 10) * exponentialDelay
  min (exponentialDelay + jitter) 30000

/-- Result shape of `SupabaseService.upsertData`. -/
structure UpsertOutcome where
  inserted : Nat
  updated : Nat
  errors : List String
deriving DecidableEq

/-- From `supabaseService.js` (lines 216–219 of `upsertData`): stamp
every record's `updated_at` with the current time before sending. -/
def timestampRows (now : String) (data : List JsVal) : List JsVal :=
  data.map (fun record =>
    match record with
    | .obj fields => .obj (setKey fields "updated_at" (.str now))
    | v => v)

/-- From `supabaseService.js` (`SupabaseService.upsertData`): empty
batches return zero counts without touching the network; otherwise the
retried client upsert either throws (`resp = .error e`, rethrown) or
returns a response whose array length (or 0 when the response data is
`null`) is reported as both `inserted` and `updated`. -/
def upsertData (data : List JsVal) (resp : Except String (Option Nat)) :
    Except String UpsertOutcome :=
  if data.isEmpty then .ok ⟨0, 0, []⟩
  else
    match resp with
    | .error e => .error e
    | .ok respLen => .ok ⟨respLen.getD 0, respLen.getD 0, []⟩

/-- From `syncState.js` (`SyncStateManager.getLastSyncTime`): look up the
`sync_state` row for the database id; `data?.last_sync_time || null`
collapses a missing row (and a falsy empty-string timestamp) to `null`.
The store is the association list `database_id ↦ last_sync_time`. -/
def getLastSyncTime (st : List (String × String)) (databaseId : String) : Option String :=
  match (st.find? (fun kv => kv.1 = databaseId)).map (fun kv => kv.2) with
  | some t => if t = "" then none else some t
  | none => none

/-- From `syncState.js` (`SyncStateManager.updateLastSyncTime`): upsert
the row keyed on `database_id` with the new `last_sync_time`. -/
def updateLastSyncTime (st : List (String × String)) (databaseId syncTime : String) :
    List (String × String) :=
  setKey st databaseId syncTime

/-- Stats block of the orchestrator's `createSyncResult`; rates are kept
as exact rationals (the code's `toFixed(2)` string formatting is pure
presentation). -/
structure SyncStats where
  totalFetched : Nat
  totalTransformed : Nat
  totalSynced : Nat
  transformationRate : ℚ
  syncRate : ℚ
deriving DecidableEq

/-- The `SyncResult` returned by `NotionSupabaseSync.sync` (the
`duration` and `config` echo fields, being pure clock/config reporting,
are not modelled). -/
structure SyncResultV where
  success : Bool
  startTime : String
  endTime : String
  stats : SyncStats
deriving DecidableEq

/-- From `index.js` (`NotionSupabaseSync.createSyncResult`). -/
def createSyncResult (startTime endTime : String)
    (totalFetched totalTransformed totalSynced : Nat) : SyncResultV :=
  ⟨true, startTime, endTime,
   ⟨totalFetched, totalTransformed, totalSynced,
    if 0 < totalFetched then (totalTransformed : ℚ) / (totalFetched : ℚ) * 100 else 0,
    if 0 < totalTransformed then (totalSynced : ℚ) / (totalTransformed : ℚ) * 100 else 0⟩⟩

/-- From `index.js` (`NotionSupabaseSync.transformPages`): transform each
page, keep it only when validation passes; a thrown transform or a failed
validation records an error and continues with the next page. -/
def transformPages (notionPages : List JsVal) : List JsVal :=
  notionPages.foldl (fun transformedPages page =>
    match transformNotionPage page with
    | none => transformedPages
    | some transformedPage =>
      if validateTransformedData transformedPage then
        transformedPages ++ [transformedPage]
      else transformedPages) []

/-- From `index.js` (`NotionSupabaseSync.fetchNotionPages`): the
`maxPages ? pages.slice(0, maxPages) : pages` cap — note that a `0` cap
is falsy in JavaScript and therefore applies no limit. -/
def limitPages (maxPages : Option Nat) (pages : List JsVal) : List JsVal :=
  match maxPages with
  | some m => if m = 0 then pages else pages.take m
  | none => pages

/-- Configuration of one sync run (the two identifiers the modelled steps
depend on). -/
structure SyncConfig where
  databaseId : String
  tableName : String

/-- The options object of `NotionSupabaseSync.sync`. -/
structure SyncOptions where
  forceFullSync : Bool
  dryRun : Bool
  maxPages : Option Nat

/-- Environment of one sync run: the outcome of each external call the
orchestrator makes, in program order. `fetchResult` abstracts the
paginated Notion fetch (modelled in detail by `getAllDatabasePages`
below); `upsertResp` is the Supabase response to the batch upsert;
`updateOk` is whether the best-effort checkpoint write succeeds. -/
structure SyncEnv where
  schemaResult : Except String JsVal
  probe : TableProbe
  execFails : List String
  fetchResult : Except String (List JsVal)
  upsertResp : Except String (Option Nat)
  updateOk : Bool

/-- Observable outcome of one sync run: the returned / thrown result, the
final `sync_state` store, and effect instrumentation (ALTER statements
issued, whether the destination-table upsert was attempted). -/
structure SyncRun where
  result : Except String SyncResultV
  finalState : List (String × String)
  alterStatementsIssued : List String
  upsertAttempted : Bool

/-- From `index.js` (`NotionSupabaseSync.sync`): schema fetch → (unless
dry run) column reconciliation → checkpoint read (unless full sync) →
incremental fetch with `maxPages` cap → transform → (dry run: skip)
upsert → (unless dry run) checkpoint write stamped with the run's start
time → aggregate stats. Any error in the fetch/reconcile/upsert steps is
rethrown and leaves the checkpoint store untouched. -/
def sync (cfg : SyncConfig) (opts : SyncOptions) (env : SyncEnv)
    (startTime endTime : String) (st0 : List (String × String)) : SyncRun :=
  match env.schemaResult with
  | .error e => ⟨.error e, st0, [], false⟩
  | .ok databaseSchema =>
    match (if opts.dryRun then Except.ok []
           else (createMissingColumns databaseSchema env.probe env.execFails
                   cfg.tableName).map (fun r => r.statements)) with
    | .error e => ⟨.error e, st0, [], false⟩
    | .ok issued =>
      let lastSyncTime := if opts.forceFullSync then none
                          else getLastSyncTime st0 cfg.databaseId
      match env.fetchResult with
      | .error e => ⟨.error e, st0, issued, false⟩
      | .ok pages =>
        let notionPages := limitPages opts.maxPages pages
        if notionPages.length = 0 then
          ⟨.ok (createSyncResult startTime endTime 0 0 0), st0, issued, false⟩
        else
          let transformedPages := transformPages notionPages
          if transformedPages.length = 0 then
            ⟨.ok (createSyncResult startTime endTime notionPages.length 0 0),
             st0, issued, false⟩
          else
            match (if opts.dryRun then Except.ok ⟨0, transformedPages.length, []⟩
                   else upsertData transformedPages env.upsertResp) with
            | .error e => ⟨.error e, st0, issued, true⟩
            | .ok syncResult =>
              let st1 := if opts.dryRun then st0
                         else if env.updateOk then
                           updateLastSyncTime st0 cfg.databaseId startTime
                         else st0
              ⟨.ok (createSyncResult startTime endTime notionPages.length
                      transformedPages.length (syncResult.inserted + syncResult.updated)),
               st1, issued, !opts.dryRun⟩

/-- A Notion page as seen by the query endpoint's filter: its identifier
and its `last_edited_time`, as a point on a linear time scale. -/
structure NotionPage where
  pid : String
  lastEditedTime : Int
deriving DecidableEq

/-- The filters `NotionService.getDatabasePages` can send: the
`{timestamp: 'last_edited_time', last_edited_time: {after: t}}` time
filter it builds, and the `{and: [...]}` combination used when a caller
filter is also present. -/
inductive NotionFilter : Type where
  | timeAfter (t : Int) : NotionFilter
  | andF (a b : NotionFilter) : NotionFilter
deriving DecidableEq

/-- Notion API filter semantics: `after` on a timestamp is strict
(records whose timestamp is strictly later than the bound). -/
def matchesFilter : NotionFilter → NotionPage → Bool
  | .timeAfter t, pg => decide (t < pg.lastEditedTime)
  | .andF a b, pg => matchesFilter a pg && matchesFilter b pg

def matchesOptFilter : Option NotionFilter → NotionPage → Bool
  | none, _ => true
  | some f, pg => matchesFilter f pg

/-- From `notionService.js` (`NotionService.getDatabasePages`, lines
52–70): when `lastSyncTime` is truthy, build the `last_edited_time`
`after` filter and conjoin it with any caller-supplied filter; otherwise
pass the caller filter through unchanged. -/
def buildFinalFilter (filter : Option NotionFilter) (lastSyncTime : Option Int) :
    Option NotionFilter :=
  match lastSyncTime with
  | none => filter
  | some t =>
    match filter with
    | some f => some (.andF f (.timeAfter t))
    | none => some (.timeAfter t)

/-- One page of the Notion query response. -/
structure NotionQueryResponse where
  results : List NotionPage
  hasMore : Bool
  nextCursor : Nat
deriving DecidableEq

/-- External Notion API model (from the documented query contract): the
server applies the request's filter to the database, preserves order, and
returns the slice at the cursor, with `has_more` / `next_cursor`
describing the remainder. -/
def queryDatabasePages (db : List NotionPage) (finalFilter : Option NotionFilter)
    (cursor pageSize : Nat) : NotionQueryResponse :=
  let matched := db.filter (matchesOptFilter finalFilter)
  ⟨(matched.drop cursor).take pageSize,
   decide (cursor + pageSize < matched.length),
   cursor + pageSize⟩

/-- From `notionService.js` (`NotionService.getDatabasePages`): build the
final filter — on every single page request — and query one page. -/
def getDatabasePages (db : List NotionPage) (filter : Option NotionFilter)
    (lastSyncTime : Option Int) (cursor pageSize : Nat) : NotionQueryResponse :=
  queryDatabasePages db (buildFinalFilter filter lastSyncTime) cursor pageSize

/-- The `while (hasMore)` loop of `NotionService.getAllDatabasePages`:
follow cursors, concatenating each page's `results` verbatim (no
client-side re-filtering). `fuel` bounds the iteration count for
structural recursion; `getAllDatabasePages` supplies enough fuel for the
loop to run to completion (proved in `getAllDatabasePagesAux_drop`). -/
def getAllDatabasePagesAux (db : List NotionPage) (filter : Option NotionFilter)
    (lastSyncTime : Option Int) (pageSize : Nat) : Nat → Nat → List NotionPage
  | cursor, 0 => (getDatabasePages db filter lastSyncTime cursor pageSize).results
  | cursor, fuel + 1 =>
    let response := getDatabasePages db filter lastSyncTime cursor pageSize
    if response.hasMore then
      response.results ++
        getAllDatabasePagesAux db filter lastSyncTime pageSize response.nextCursor fuel
    else response.results

/-- From `notionService.js` (`NotionService.getAllDatabasePages`):
repeatedly fetch pages from cursor 0 until the server reports no more,
concatenating the results. -/
def getAllDatabasePages (db : List NotionPage) (filter : Option NotionFilter)
    (lastSyncTime : Option Int) (pageSize : Nat) : List NotionPage :=
  getAllDatabasePagesAux db filter lastSyncTime pageSize 0 (db.length + 1)

/-- The selection the spec claims for the incremental filter: records
whose last-modified timestamp is on or after the checkpoint. Stated from
the spec's words, for comparison with the code's strict `after` filter. -/
def onOrAfterSelection (db : List NotionPage) (t : Int) : List NotionPage :=
  db.filter (fun pg => decide (t ≤ pg.lastEditedTime))

/-- Concrete fixtures used by the witness theorems. -/
def sampleSchema : JsVal := .obj [("properties", .obj [])]

def samplePage : JsVal := .obj [("id", .str "p1"), ("properties", .obj [])]

def sampleRow : List (String × JsVal) := [("notion_id", .str "p1")]

def sampleCfg : SyncConfig := ⟨"db1", "notion_pages"⟩

def sampleState : List (String × String) := [("db1", "2024-01-01T00:00:00Z")]

def sampleEnvUpsertFail : SyncEnv :=
  ⟨.ok sampleSchema, .empty, [], .ok [samplePage], .error "upsert failed", true⟩

def sampleEnvDryRun : SyncEnv :=
  ⟨.ok sampleSchema, .empty, [], .ok [samplePage], .ok (some 1), true⟩

def sampleEnvUpsertOk : SyncEnv :=
  ⟨.ok sampleSchema, .empty, [], .ok [samplePage], .ok (some 1), true⟩

/-- Schema with a single title property `Name`, used to exercise
`createMissingColumns` on a provisioned-but-empty table. -/
def nameSchema : JsVal :=
  .obj [("properties", .obj [("Name", .obj [("type", .str "title")])])]

def collidingColumns : List ColumnDefinition :=
  [⟨"a", "TEXT", "A", "title"⟩, ⟨"a", "TEXT", "a!", "rich_text"⟩]

/-- The column-reconciliation result for `sampleSchema` (no properties,
nothing missing) against the base-column fallback. -/
def sampleCmcResult : ColumnCreationResult :=
  ⟨true, 0, 4, none, [], ⟨4, 4, 0, []⟩, []⟩

/-- No two adjacent underscores (the "single separating underscores"
shape of the spec's normalization property). -/
def noAdjU : List Char → Bool
  | [] => true
  | [_] => true
  | c1 :: c2 :: rest => !(c1 = '_' && c2 = '_') && noAdjU (c2 :: rest)

/-- The first character, if any, is not an underscore. -/
def notUHead : List Char → Bool
  | [] => true
  | c :: _ => !(c = '_')

/-- The last character, if any, is not an underscore. -/
def notULast : List Char → Bool
  | [] => true
  | [c] => !(c = '_')
  | _ :: rest => notULast rest

theorem collapseUnderscores_cons : ∀ (x : Char) (xs : List Char),
    ∃ t, collapseUnderscores (x :: xs) = x :: t
  | _, [] => ⟨[], rfl⟩
  | x, y :: ys => by
    unfold collapseUnderscores
    split
    next hcond =>
      obtain ⟨t, ht⟩ := collapseUnderscores_cons y ys
      simp only [Bool.and_eq_true, decide_eq_true_eq] at hcond
      exact ⟨t, by rw [ht, hcond.1, hcond.2]⟩
    next hcond => exact ⟨collapseUnderscores (y :: ys), rfl⟩

theorem collapseUnderscores_all (p : Char → Bool) :
    ∀ l : List Char, l.all p = true → (collapseUnderscores l).all p = true
  | [] => fun h => h
  | [c] => fun h => h
  | c1 :: c2 :: rest => fun h => by
    simp only [List.all_cons, Bool.and_eq_true] at h
    unfold collapseUnderscores
    split
    · exact collapseUnderscores_all p (c2 :: rest)
        (by simp only [List.all_cons, Bool.and_eq_true]; exact h.2)
    · simp only [List.all_cons, Bool.and_eq_true]
      refine ⟨h.1, ?_⟩
      have := collapseUnderscores_all p (c2 :: rest)
        (by simp only [List.all_cons, Bool.and_eq_true]; exact h.2)
      simpa [List.all_cons] using this

theorem noAdjU_collapseUnderscores : ∀ l : List Char, noAdjU (collapseUnderscores l) = true
  | [] => rfl
  | [_] => rfl
  | c1 :: c2 :: rest => by
    unfold collapseUnderscores
    split
    · exact noAdjU_collapseUnderscores (c2 :: rest)
    next hcond =>
      obtain ⟨t, ht⟩ := collapseUnderscores_cons c2 rest
      rw [ht]
      have h2 : noAdjU (c2 :: t) = true := ht ▸ noAdjU_collapseUnderscores (c2 :: rest)
      have hc : (decide (c1 = '_') && decide (c2 = '_')) = false :=
        Bool.eq_false_iff.mpr hcond
      simp only [noAdjU, h2, hc, Bool.not_false, Bool.and_true]

theorem collapseUnderscores_eq_self : ∀ l : List Char, noAdjU l = true → collapseUnderscores l = l
  | [] => fun _ => rfl
  | [_] => fun _ => rfl
  | c1 :: c2 :: rest => fun h => by
    simp only [noAdjU, Bool.and_eq_true] at h
    have hc : (decide (c1 = '_') && decide (c2 = '_')) = false := by
      have h1 := h.1
      rw [Bool.not_eq_true'] at h1
      exact h1
    unfold collapseUnderscores
    rw [hc]
    simp only [Bool.false_eq_true, if_false]
    rw [collapseUnderscores_eq_self (c2 :: rest) h.2]

theorem dropLeadingUnderscore_all (p : Char → Bool) (l : List Char)
    (h : l.all p = true) : (dropLeadingUnderscore l).all p = true := by
  cases l with
  | nil => exact h
  | cons c rest =>
    rw [show dropLeadingUnderscore (c :: rest) = if c = '_' then rest else c :: rest from rfl]
    by_cases hc : c = '_'
    · rw [if_pos hc]
      simp only [List.all_cons, Bool.and_eq_true] at h
      exact h.2
    · rw [if_neg hc]
      exact h

theorem dropLeadingUnderscore_noAdjU (l : List Char) (h : noAdjU l = true) :
    noAdjU (dropLeadingUnderscore l) = true := by
  cases l with
  | nil => exact h
  | cons c rest =>
    rw [show dropLeadingUnderscore (c :: rest) = if c = '_' then rest else c :: rest from rfl]
    by_cases hc : c = '_'
    · rw [if_pos hc]
      cases rest with
      | nil => rfl
      | cons d ds =>
        simp only [noAdjU, Bool.and_eq_true] at h
        exact h.2
    · rw [if_neg hc]
      exact h

theorem dropLeadingUnderscore_head (l : List Char) (h : noAdjU l = true) :
    notUHead (dropLeadingUnderscore l) = true := by
  cases l with
  | nil => rfl
  | cons c rest =>
    rw [show dropLeadingUnderscore (c :: rest) = if c = '_' then rest else c :: rest from rfl]
    by_cases hc : c = '_'
    · rw [if_pos hc]
      cases rest with
      | nil => rfl
      | cons d ds =>
        simp only [noAdjU, Bool.and_eq_true] at h
        subst hc
        have hd : ¬ (d = '_') := by simpa using h.1
        simpa [notUHead] using hd
    · rw [if_neg hc]
      simpa [notUHead] using hc

theorem dropTrailingUnderscore_all (p : Char → Bool) :
    ∀ l : List Char, l.all p = true → (dropTrailingUnderscore l).all p = true
  | [] => fun h => h
  | [c] => fun h => by
    rw [show dropTrailingUnderscore [c] = if c = '_' then [] else [c] from rfl]
    by_cases hc : c = '_'
    · rw [if_pos hc]
      rfl
    · rw [if_neg hc]
      exact h
  | c :: y :: ys => fun h => by
    have hd : dropTrailingUnderscore (c :: y :: ys) = c :: dropTrailingUnderscore (y :: ys) := rfl
    rw [hd]
    simp only [List.all_cons, Bool.and_eq_true] at h ⊢
    refine ⟨h.1, ?_⟩
    have := dropTrailingUnderscore_all p (y :: ys)
      (by simp only [List.all_cons, Bool.and_eq_true]; exact h.2)
    simpa using this

theorem dropTrailingUnderscore_noAdjU : ∀ l : List Char,
    noAdjU l = true → noAdjU (dropTrailingUnderscore l) = true
  | [] => fun h => h
  | [c] => fun _ => by
    rw [show dropTrailingUnderscore [c] = if c = '_' then [] else [c] from rfl]
    by_cases hc : c = '_'
    · rw [if_pos hc]
      rfl
    · rw [if_neg hc]
      rfl
  | c :: y :: ys => fun h => by
    have hd : dropTrailingUnderscore (c :: y :: ys) = c :: dropTrailingUnderscore (y :: ys) := rfl
    rw [hd]
    simp only [noAdjU, Bool.and_eq_true] at h
    cases ys with
    | nil =>
      by_cases hy : y = '_'
      · simp [dropTrailingUnderscore, hy, noAdjU]
      · rw [show dropTrailingUnderscore [y] = [y] from by
          unfold dropTrailingUnderscore; rw [if_neg hy]]
        simp only [noAdjU, Bool.and_true]
        exact h.1
    | cons z zs =>
      have hd2 : dropTrailingUnderscore (y :: z :: zs) = y :: dropTrailingUnderscore (z :: zs) := rfl
      rw [hd2]
      simp only [noAdjU, Bool.and_eq_true]
      constructor
      · exact h.1
      · have := dropTrailingUnderscore_noAdjU (y :: z :: zs) h.2
        rw [hd2] at this
        simpa [noAdjU] using this

theorem dropTrailingUnderscore_last : ∀ l : List Char,
    noAdjU l = true → notULast (dropTrailingUnderscore l) = true
  | [] => fun _ => rfl
  | [c] => fun _ => by
    rw [show dropTrailingUnderscore [c] = if c = '_' then [] else [c] from rfl]
    by_cases hc : c = '_'
    · rw [if_pos hc]
      rfl
    · rw [if_neg hc]
      simpa [notULast] using hc
  | c :: y :: ys => fun h => by
    have hd : dropTrailingUnderscore (c :: y :: ys) = c :: dropTrailingUnderscore (y :: ys) := rfl
    rw [hd]
    simp only [noAdjU, Bool.and_eq_true] at h
    cases ys with
    | nil =>
      by_cases hy : y = '_'
      · have hcne : ¬ (c = '_') := by
          subst hy
          simpa using h.1
        simp [dropTrailingUnderscore, hy, notULast, hcne]
      · rw [show dropTrailingUnderscore [y] = [y] from by
          unfold dropTrailingUnderscore; rw [if_neg hy]]
        simpa [notULast] using hy
    | cons z zs =>
      have hd2 : dropTrailingUnderscore (y :: z :: zs) = y :: dropTrailingUnderscore (z :: zs) := rfl
      have hrec := dropTrailingUnderscore_last (y :: z :: zs) h.2
      rw [hd2] at hrec
      rw [hd2]
      exact hrec

theorem dropTrailingUnderscore_headPreserved (l : List Char) (h : notUHead l = true) :
    notUHead (dropTrailingUnderscore l) = true := by
  cases l with
  | nil => rfl
  | cons c rest =>
    cases rest with
    | nil =>
      rw [show dropTrailingUnderscore [c] = if c = '_' then [] else [c] from rfl]
      by_cases hc : c = '_'
      · rw [if_pos hc]
        rfl
      · rw [if_neg hc]
        exact h
    | cons y ys => exact h

theorem dropLeadingUnderscore_eq_self (l : List Char) (h : notUHead l = true) :
    dropLeadingUnderscore l = l := by
  cases l with
  | nil => rfl
  | cons c rest =>
    rw [show dropLeadingUnderscore (c :: rest) = if c = '_' then rest else c :: rest from rfl,
        if_neg]
    simpa [notUHead] using h

theorem dropTrailingUnderscore_eq_self : ∀ l : List Char,
    notULast l = true → dropTrailingUnderscore l = l
  | [] => fun _ => rfl
  | [c] => fun h => by
    rw [show dropTrailingUnderscore [c] = if c = '_' then [] else [c] from rfl, if_neg]
    simpa [notULast] using h
  | c :: y :: ys => fun h => by
    have hd : dropTrailingUnderscore (c :: y :: ys) = c :: dropTrailingUnderscore (y :: ys) := rfl
    rw [hd, dropTrailingUnderscore_eq_self (y :: ys) (by simpa [notULast] using h)]

theorem jsSanitizeChar_toLower_fix (c : Char) (h : isLowerAlnum c = true ∨ c = '_') :
    jsSanitizeChar (Char.toLower c) = c := by
  have hfix : Char.toLower c = c := by
    simp only [Char.toLower]
    split
    next hcond =>
      exfalso
      obtain ⟨h1, h2⟩ := hcond
      rcases h with hl | he
      · simp only [isLowerAlnum, Bool.or_eq_true, Bool.and_eq_true, decide_eq_true_eq] at hl
        rcases hl with ⟨ha, hb⟩ | ⟨ha, hb⟩
        · have ha' : (97 : Nat) ≤ c.toNat := ha
          have hb' : c.toNat ≤ 122 := hb
          omega
        · have ha' : (48 : Nat) ≤ c.toNat := ha
          have hb' : c.toNat ≤ 57 := hb
          omega
      · subst he
        exact absurd h2 (by decide)
    · rfl
  rw [hfix]
  rcases h with hl | he
  · simp [jsSanitizeChar, hl]
  · subst he
    decide

theorem sanitize_map_fix : ∀ l : List Char,
    l.all (fun c => isLowerAlnum c || c = '_') = true →
    (l.map Char.toLower).map jsSanitizeChar = l
  | [] => fun _ => rfl
  | c :: rest => fun h => by
    simp only [List.all_cons, Bool.and_eq_true, Bool.or_eq_true, decide_eq_true_eq] at h
    simp only [List.map_cons]
    rw [jsSanitizeChar_toLower_fix c h.1, sanitize_map_fix rest
      (by simp only [List.all_eq_true] at h ⊢
          intro a ha
          exact h.2 a ha)]

/-- C4: convertToSnakeCase is idempotent, and its output consists only of
lowercase alphanumeric characters and underscores, with no two adjacent
underscores and no leading or trailing underscore. -/
theorem convertToSnakeCase_idempotent_shape (x : String) :
    convertToSnakeCase (convertToSnakeCase x) = convertToSnakeCase x ∧
    (convertToSnakeCase x).data.all (fun c => isLowerAlnum c || c = '_') = true ∧
    noAdjU (convertToSnakeCase x).data = true ∧
    notUHead (convertToSnakeCase x).data = true ∧
    notULast (convertToSnakeCase x).data = true := by
  have hall0 : ((x.data.map Char.toLower).map jsSanitizeChar).all
      (fun c => isLowerAlnum c || c = '_') = true := by
    rw [List.all_eq_true]
    intro c hc
    rw [List.mem_map] at hc
    obtain ⟨d, _, rfl⟩ := hc
    by_cases hd : isLowerAlnum d = true
    · simp [jsSanitizeChar, hd]
    · simp [jsSanitizeChar, hd]
  have hnadj := noAdjU_collapseUnderscores ((x.data.map Char.toLower).map jsSanitizeChar)
  have h1 := dropTrailingUnderscore_all _ _ (dropLeadingUnderscore_all _ _
    (collapseUnderscores_all _ _ hall0))
  have h2 := dropTrailingUnderscore_noAdjU _ (dropLeadingUnderscore_noAdjU _ hnadj)
  have h3 := dropTrailingUnderscore_headPreserved _ (dropLeadingUnderscore_head _ hnadj)
  have h4 := dropTrailingUnderscore_last _ (dropLeadingUnderscore_noAdjU _ hnadj)
  refine ⟨?_, h1, h2, h3, h4⟩
  have key : ∀ L : List Char, L.all (fun c => isLowerAlnum c || c = '_') = true →
      noAdjU L = true → notUHead L = true → notULast L = true →
      convertToSnakeCase (String.mk L) = String.mk L := by
    intro L hA hN hH hT
    unfold convertToSnakeCase
    rw [show (String.mk L).data = L from rfl, sanitize_map_fix L hA,
        collapseUnderscores_eq_self L hN, dropLeadingUnderscore_eq_self L hH,
        dropTrailingUnderscore_eq_self L hT]
  exact key _ h1 h2 h3 h4

/-- C2: getMissingColumns returns exactly the entries of
`requiredColumns` whose name is absent from `existingColumns`, as a
sublist of `requiredColumns` (hence in original order), and a
duplicate-free `requiredColumns` yields a duplicate-free result — even
when two distinct entries share the same normalized name, since they
remain distinct records. -/
theorem getMissingColumns_diff_spec (requiredColumns : List ColumnDefinition)
    (existingColumns : List String) :
    (∀ c, c ∈ getMissingColumns requiredColumns existingColumns ↔
      (c ∈ requiredColumns ∧ c.name ∉ existingColumns)) ∧
    (getMissingColumns requiredColumns existingColumns).Sublist requiredColumns ∧
    (requiredColumns.Nodup → (getMissingColumns requiredColumns existingColumns).Nodup) := by
  refine ⟨fun c => ?_, List.filter_sublist _, fun h => h.filter _⟩
  unfold getMissingColumns
  rw [List.mem_filter]
  simp [List.elem_iff]

theorem getMissingColumns_diff_spec_witness :
    ((⟨"a", "TEXT", "A", "title"⟩ : ColumnDefinition) ∈ getMissingColumns collidingColumns []) ∧
    (getMissingColumns collidingColumns []).Nodup :=
  ⟨((getMissingColumns_diff_spec collidingColumns []).1 _).mpr (by decide),
   (getMissingColumns_diff_spec collidingColumns []).2.2 (by decide)⟩

/-- C8: the retry delay before 0-indexed attempt `attempt` equals
`min(baseDelay * 2 ^ attempt + jitter, 30000)` for some jitter between 0
and 10 percent of the exponential delay; it never exceeds 30000 ms and is
never below `min(baseDelay * 2 ^ attempt, 30000)`. -/
theorem calculateDelay_bounds (attempt : Nat) (baseDelay rand : ℚ)
    (hb : 0 < baseDelay) (h0 : 0 ≤ rand) (h1 : rand < 1) :
    ∃ jitter : ℚ, 0 ≤ jitter ∧ jitter ≤ (1 / 10) * (baseDelay * 2 ^ attempt) ∧
      calculateDelay attempt baseDelay rand = min (baseDelay * 2 ^ attempt + jitter) 30000 ∧
      calculateDelay attempt baseDelay rand ≤ 30000 ∧
      min (baseDelay * 2 ^ attempt) 30000 ≤ calculateDelay attempt baseDelay rand := by
  have hexp : (0 : ℚ) < baseDelay * 2 ^ attempt := by positivity
  have hj0 : (0 : ℚ) ≤ rand * (1 / 10) * (baseDelay * 2 ^ attempt) := by
    have := mul_nonneg (mul_nonneg h0 (by norm_num : (0:ℚ) ≤ 1 / 10)) hexp.le
    exact this
  refine ⟨rand * (1 / 10) * (baseDelay * 2 ^ attempt), hj0, ?_, rfl, ?_, ?_⟩
  · have hstep : rand * ((1 / 10) * (baseDelay * 2 ^ attempt)) ≤
        1 * ((1 / 10) * (baseDelay * 2 ^ attempt)) := by
      apply mul_le_mul_of_nonneg_right h1.le
      positivity
    calc rand * (1 / 10) * (baseDelay * 2 ^ attempt)
        = rand * ((1 / 10) * (baseDelay * 2 ^ attempt)) := by ring
      _ ≤ 1 * ((1 / 10) * (baseDelay * 2 ^ attempt)) := hstep
      _ = (1 / 10) * (baseDelay * 2 ^ attempt) := by ring
  · exact min_le_right _ _
  · exact min_le_min (le_add_of_nonneg_right hj0) le_rfl

theorem calculateDelay_bounds_witness :
    ∃ jitter : ℚ, 0 ≤ jitter ∧ jitter ≤ (1 / 10) * (1000 * 2 ^ 2) ∧
      calculateDelay 2 1000 (1 / 2) = min (1000 * 2 ^ 2 + jitter) 30000 ∧
      calculateDelay 2 1000 (1 / 2) ≤ 30000 ∧
      min ((1000 : ℚ) * 2 ^ 2) 30000 ≤ calculateDelay 2 1000 (1 / 2) :=
  calculateDelay_bounds 2 1000 (1 / 2) (by norm_num) (by norm_num) (by norm_num)

/-- C6 (code bug): a number-typed property whose value is 0 is
transformed to `null` (the code's `propertyData.number || null` collapses
the falsy 0), while a nonzero value is returned as itself. The spec's
"the numeric value, or null" is violated exactly at 0. -/
theorem transformNotionProperty_number_zero_is_null :
    transformNotionProperty (JsVal.obj [("type", JsVal.str "number"), ("number", JsVal.num 0)]) =
      JsVal.nul ∧
    transformNotionProperty (JsVal.obj [("type", JsVal.str "number"), ("number", JsVal.num 5)]) =
      JsVal.num 5 := by
  constructor
  · rw [transformNotionProperty.eq_def, transformNotionPropertyBody.eq_def]
    rfl
  · rw [transformNotionProperty.eq_def, transformNotionPropertyBody.eq_def]
    rfl

/-- C9: every row produced by transformNotionPage is an object none of
whose values is null or undefined (null-valued transforms are omitted
entirely), and any row accepted by validateTransformedData has a truthy
notion_id. -/
theorem transformNotionPage_row_invariants (page v : JsVal)
    (h : transformNotionPage page = some v) :
    ∃ row : List (String × JsVal), v = JsVal.obj row ∧
      row.all (fun kv => !(isNullish kv.2)) = true ∧
      (validateTransformedData v = true → truthy (jsGetD v "notion_id") = true) := by
  cases page with
  | obj fields =>
    unfold transformNotionPage at h
    dsimp only at h
    split at h
    · exact absurd h (by simp)
    next props hprops =>
      injection h with hv
      refine ⟨_, hv.symm, ?_, ?_⟩
      · rw [List.all_eq_true]
        intro kv hkv
        rw [List.mem_filter] at hkv
        exact hkv.2
      · rw [← hv]
        intro hval
        exact hval
  | undefined => simp [transformNotionPage] at h
  | nul => simp [transformNotionPage] at h
  | bool b => simp [transformNotionPage] at h
  | num q => simp [transformNotionPage] at h
  | str sv => simp [transformNotionPage] at h
  | arr xs => simp [transformNotionPage] at h

theorem transformNotionPage_row_invariants_witness :
    ∃ row : List (String × JsVal), JsVal.obj sampleRow = JsVal.obj row ∧
      row.all (fun kv => !(isNullish kv.2)) = true ∧
      (validateTransformedData (JsVal.obj sampleRow) = true →
        truthy (jsGetD (JsVal.obj sampleRow) "notion_id") = true) :=
  transformNotionPage_row_invariants samplePage (JsVal.obj sampleRow) rfl

theorem getAllDatabasePagesAux_drop (db : List NotionPage) (filter : Option NotionFilter)
    (lastSyncTime : Option Int) (pageSize : Nat) (hp : 0 < pageSize) :
    ∀ fuel cursor : Nat,
      (db.filter (matchesOptFilter (buildFinalFilter filter lastSyncTime))).length ≤
        cursor + pageSize * (fuel + 1) →
      getAllDatabasePagesAux db filter lastSyncTime pageSize cursor fuel =
        (db.filter (matchesOptFilter (buildFinalFilter filter lastSyncTime))).drop cursor := by
  intro fuel
  induction fuel with
  | zero =>
    intro cursor hbound
    unfold getAllDatabasePagesAux getDatabasePages queryDatabasePages
    dsimp only
    apply List.take_of_length_le
    rw [List.length_drop]
    omega
  | succ n ih =>
    intro cursor hbound
    unfold getAllDatabasePagesAux getDatabasePages queryDatabasePages
    dsimp only
    split
    next hmore =>
      rw [ih (cursor + pageSize) (by
        have hms : pageSize * (n + 1 + 1) = pageSize * (n + 1) + pageSize := Nat.mul_succ _ _
        omega)]
      rw [← List.drop_drop]
      exact List.take_append_drop _ _
    next hmore =>
      apply List.take_of_length_le
      rw [List.length_drop]
      have hle : ¬ (cursor + pageSize <
          (db.filter (matchesOptFilter (buildFinalFilter filter lastSyncTime))).length) := by
        intro hlt
        exact hmore (by simpa using hlt)
      omega

/-- C3 (amended): with a checkpoint timestamp supplied and no caller
filter, the paginated fetch returns exactly the pages whose
last-modified timestamp is strictly after the checkpoint — the
server-side filter built on every page request is the sole selection
criterion; no client-side re-filtering is applied. -/
theorem getAllDatabasePages_strictly_after (db : List NotionPage) (t : Int)
    (pageSize : Nat) (hp : 0 < pageSize) :
    getAllDatabasePages db none (some t) pageSize =
      db.filter (fun pg => decide (t < pg.lastEditedTime)) := by
  unfold getAllDatabasePages
  rw [getAllDatabasePagesAux_drop db none (some t) pageSize hp (db.length + 1) 0 (by
    have h1 : (db.filter (matchesOptFilter (buildFinalFilter none (some t)))).length ≤
        db.length := List.length_filter_le _ _
    have h2 : db.length + 2 ≤ pageSize * (db.length + 2) :=
      Nat.le_mul_of_pos_left _ hp
    have h3 : pageSize * (db.length + 1 + 1) = pageSize * (db.length + 2) := by ring
    omega)]
  rw [List.drop_zero]
  rfl

theorem getAllDatabasePages_strictly_after_witness :
    getAllDatabasePages [⟨"a", 10⟩, ⟨"b", 3⟩] none (some 5) 1 =
      List.filter (fun pg => decide ((5 : Int) < pg.lastEditedTime)) [⟨"a", 10⟩, ⟨"b", 3⟩] :=
  getAllDatabasePages_strictly_after [⟨"a", 10⟩, ⟨"b", 3⟩] 5 1 (by decide)

/-- C3 (counterexample): with the checkpoint at time 5, a page
last-edited exactly at time 5 is excluded by the filter the code sends
(`after`, strict), whereas the claimed on-or-after selection contains it;
the fetch result therefore differs from the claimed selection. -/
theorem getAllDatabasePages_boundary_excluded :
    getAllDatabasePages [⟨"a", 5⟩] none (some 5) 100 = [] ∧
    onOrAfterSelection [⟨"a", 5⟩] 5 = [⟨"a", 5⟩] ∧
    getAllDatabasePages [⟨"a", 5⟩] none (some 5) 100 ≠ onOrAfterSelection [⟨"a", 5⟩] 5 := by
  refine ⟨rfl, rfl, ?_⟩
  intro h
  have hcontra : ([] : List NotionPage) = [⟨"a", 5⟩] :=
    calc ([] : List NotionPage)
        = getAllDatabasePages [⟨"a", 5⟩] none (some 5) 100 := rfl
      _ = onOrAfterSelection [⟨"a", 5⟩] 5 := h
      _ = [⟨"a", 5⟩] := rfl
  exact List.noConfusion hcontra

/-- C7 (counterexample): after a first `createMissingColumns` call on a
table that holds zero rows, the table *still* holds zero rows (the call
issues only ALTER statements), so the second identical call probes the
same `empty` state, falls back to the base columns, and — far from the
claimed `created = 0` no-op — re-issues one ALTER statement and reports
`created = 1`. -/
theorem createMissingColumns_empty_table_not_noop :
    ∃ r : ColumnCreationResult,
      createMissingColumns nameSchema TableProbe.empty [] "notion_pages" = Except.ok r ∧
      r.created = 1 ∧ r.statements ≠ [] := by
  refine ⟨⟨true, 1, 4, some 0, [], ⟨5, 4, 1, [("name", "TEXT", "Name")]⟩,
    ["ALTER TABLE notion_pages ADD COLUMN IF NOT EXISTS name TEXT"]⟩, ?_, rfl, by decide⟩
  rfl

/-- C7 (amended): re-running `createMissingColumns` with an unchanged
schema is a no-op — `created = 0`, `existing` the full probed column
count, no ALTER statements issued — whenever the probe samples a row
containing every required column name (e.g. the table gained at least one
row after the first call); a still-empty table instead re-issues its
ALTER statements, as the counterexample shows. -/
theorem createMissingColumns_noop_when_probed (databaseSchema : JsVal) (keys : List String)
    (execFails : List String) (tableName : String)
    (hval : validateColumnDefinitions (extractColumnDefinitions databaseSchema) = true)
    (hcov : ∀ c ∈ extractColumnDefinitions databaseSchema, c.name ∈ keys) :
    createMissingColumns databaseSchema (TableProbe.sampled keys) execFails tableName =
      Except.ok ⟨true, 0, keys.length, none, [], createSchemaSummary [] keys, []⟩ := by
  have hmiss : getMissingColumns (extractColumnDefinitions databaseSchema) keys = [] := by
    unfold getMissingColumns
    rw [List.filter_eq_nil_iff]
    intro c hc
    simp [List.elem_iff, hcov c hc]
  unfold createMissingColumns
  dsimp only
  rw [hval]
  simp only [Bool.true_eq_false, if_false]
  rw [show getExistingColumns (TableProbe.sampled keys) = keys from rfl, hmiss]
  rfl

theorem createMissingColumns_noop_when_probed_witness :
    createMissingColumns nameSchema
        (TableProbe.sampled ["id", "notion_id", "created_at", "updated_at", "name"]) []
        "notion_pages" =
      Except.ok ⟨true, 0, 5, none, [],
        createSchemaSummary [] ["id", "notion_id", "created_at", "updated_at", "name"], []⟩ :=
  createMissingColumns_noop_when_probed nameSchema
    ["id", "notion_id", "created_at", "updated_at", "name"] [] "notion_pages"
    (by decide) (by decide)

/-- C1: in a non-dry run that reaches the upsert step, a failing upsert
(syncToSupabase throwing after retry exhaustion) makes `sync` rethrow
that error, and the stored checkpoint (the `sync_state` row's
`last_sync_time` for this database id) is exactly what it was before the
run — `updateLastSyncTime` is never reached on that path. -/
theorem sync_upsert_failure_keeps_checkpoint
    (cfg : SyncConfig) (opts : SyncOptions) (env : SyncEnv)
    (startTime endTime : String) (st0 : List (String × String))
    (s : JsVal) (cmc : ColumnCreationResult) (pages : List JsVal) (e : String)
    (hdry : opts.dryRun = false)
    (hschema : env.schemaResult = Except.ok s)
    (hcmc : createMissingColumns s env.probe env.execFails cfg.tableName = Except.ok cmc)
    (hfetch : env.fetchResult = Except.ok pages)
    (hne : transformPages (limitPages opts.maxPages pages) ≠ [])
    (hup : env.upsertResp = Except.error e) :
    (sync cfg opts env startTime endTime st0).result = Except.error e ∧
    (sync cfg opts env startTime endTime st0).finalState = st0 := by
  obtain ⟨a, as, hT⟩ : ∃ a as, transformPages (limitPages opts.maxPages pages) = a :: as := by
    cases hT' : transformPages (limitPages opts.maxPages pages) with
    | nil => exact absurd hT' hne
    | cons a as => exact ⟨a, as, rfl⟩
  have hLne : limitPages opts.maxPages pages ≠ [] := by
    intro h0
    rw [h0] at hT
    exact List.noConfusion ((rfl : transformPages ([] : List JsVal) = []).symm.trans hT)
  obtain ⟨b, bs, hL⟩ : ∃ b bs, limitPages opts.maxPages pages = b :: bs := by
    cases hL' : limitPages opts.maxPages pages with
    | nil => exact absurd hL' hLne
    | cons b bs => exact ⟨b, bs, rfl⟩
  unfold sync
  rw [hschema, hdry, hfetch, hup]
  dsimp only
  rw [hcmc]
  dsimp only [Except.map]
  rw [hT, hL]
  simp only [List.length_cons, Nat.succ_ne_zero, if_false, upsertData, List.isEmpty_cons,
    Bool.false_eq_true]
  exact ⟨trivial, trivial⟩

theorem sync_upsert_failure_keeps_checkpoint_witness :
    (sync sampleCfg ⟨false, false, none⟩ sampleEnvUpsertFail "T0" "T1" sampleState).result =
      Except.error "upsert failed" ∧
    (sync sampleCfg ⟨false, false, none⟩ sampleEnvUpsertFail "T0" "T1" sampleState).finalState =
      sampleState :=
  sync_upsert_failure_keeps_checkpoint sampleCfg ⟨false, false, none⟩ sampleEnvUpsertFail
    "T0" "T1" sampleState sampleSchema sampleCmcResult [samplePage] "upsert failed"
    rfl rfl rfl rfl
    (by
      intro h
      rw [show transformPages (limitPages (SyncOptions.mk false false none).maxPages
        [samplePage]) = [JsVal.obj sampleRow] from rfl] at h
      exact List.noConfusion h)
    rfl

/-- C5: a dry run that fetches successfully reports `totalSynced` equal
to the number of valid transformed records (the would-have-synced count,
reported through the `updated` field of the fabricated upsert result),
while no upsert is attempted against the destination table, no
schema-altering statement is issued, and the checkpoint store is left
untouched. -/
theorem sync_dry_run_reports_without_writing
    (cfg : SyncConfig) (opts : SyncOptions) (env : SyncEnv)
    (startTime endTime : String) (st0 : List (String × String))
    (s : JsVal) (pages : List JsVal)
    (hdry : opts.dryRun = true)
    (hschema : env.schemaResult = Except.ok s)
    (hfetch : env.fetchResult = Except.ok pages) :
    sync cfg opts env startTime endTime st0 =
      ⟨Except.ok (createSyncResult startTime endTime
          (limitPages opts.maxPages pages).length
          (transformPages (limitPages opts.maxPages pages)).length
          (transformPages (limitPages opts.maxPages pages)).length),
        st0, [], false⟩ := by
  unfold sync
  rw [hschema, hdry, hfetch]
  dsimp only
  simp only [reduceIte]
  by_cases hL : (limitPages opts.maxPages pages).length = 0
  · have hLnil : limitPages opts.maxPages pages = [] := List.length_eq_zero.mp hL
    rw [if_pos hL, hLnil]
    rfl
  · rw [if_neg hL]
    by_cases hT : (transformPages (limitPages opts.maxPages pages)).length = 0
    · rw [if_pos hT, hT]
    · rw [if_neg hT, Nat.zero_add]
      rfl

theorem sync_dry_run_reports_without_writing_witness :
    sync sampleCfg ⟨false, true, none⟩ sampleEnvDryRun "T0" "T1" sampleState =
      ⟨Except.ok (createSyncResult "T0" "T1" 1 1 1), sampleState, [], false⟩ :=
  sync_dry_run_reports_without_writing sampleCfg ⟨false, true, none⟩ sampleEnvDryRun
    "T0" "T1" sampleState sampleSchema [samplePage] rfl rfl rfl

/-- C10: a non-empty accepted batch always reports `inserted` equal to
`updated` (both are the length of the same Supabase response, or 0 when
the response data is null), and consequently a successful non-dry run's
`totalSynced` stat — computed as `inserted + updated` — is twice that
single response count rather than the number of rows written. -/
theorem upsertData_counts_equal_and_doubled :
    (∀ (data : List JsVal) (resp : Except String (Option Nat)) (r : UpsertOutcome),
      upsertData data resp = Except.ok r → r.inserted = r.updated) ∧
    (∀ (cfg : SyncConfig) (opts : SyncOptions) (env : SyncEnv)
        (startTime endTime : String) (st0 : List (String × String))
        (s : JsVal) (cmc : ColumnCreationResult) (pages : List JsVal) (k : Option Nat),
      opts.dryRun = false → env.schemaResult = Except.ok s →
      createMissingColumns s env.probe env.execFails cfg.tableName = Except.ok cmc →
      env.fetchResult = Except.ok pages →
      transformPages (limitPages opts.maxPages pages) ≠ [] →
      env.upsertResp = Except.ok k →
      (sync cfg opts env startTime endTime st0).result =
        Except.ok (createSyncResult startTime endTime
          (limitPages opts.maxPages pages).length
          (transformPages (limitPages opts.maxPages pages)).length
          (2 * k.getD 0))) := by
  constructor
  · intro data resp r h
    unfold upsertData at h
    split at h
    · injection h with h
      rw [← h]
    · split at h
      · exact absurd h (by simp)
      · injection h with h
        rw [← h]
  · intro cfg opts env startTime endTime st0 s cmc pages k
      hdry hschema hcmc hfetch hne hup
    obtain ⟨a, as, hT⟩ : ∃ a as, transformPages (limitPages opts.maxPages pages) = a :: as := by
      cases hT' : transformPages (limitPages opts.maxPages pages) with
      | nil => exact absurd hT' hne
      | cons a as => exact ⟨a, as, rfl⟩
    have hLne : limitPages opts.maxPages pages ≠ [] := by
      intro h0
      rw [h0] at hT
      exact List.noConfusion ((rfl : transformPages ([] : List JsVal) = []).symm.trans hT)
    obtain ⟨b, bs, hL⟩ : ∃ b bs, limitPages opts.maxPages pages = b :: bs := by
      cases hL' : limitPages opts.maxPages pages with
      | nil => exact absurd hL' hLne
      | cons b bs => exact ⟨b, bs, rfl⟩
    unfold sync
    rw [hschema, hdry, hfetch, hup]
    dsimp only
    rw [hcmc]
    dsimp only [Except.map]
    rw [hT, hL]
    simp only [List.length_cons, Nat.succ_ne_zero, if_false, upsertData, List.isEmpty_cons,
      Bool.false_eq_true]
    rw [Nat.two_mul]

theorem upsertData_counts_equal_and_doubled_witness :
    (⟨1, 1, ([] : List String)⟩ : UpsertOutcome).inserted =
      (⟨1, 1, ([] : List String)⟩ : UpsertOutcome).updated ∧
    (sync sampleCfg ⟨false, false, none⟩ sampleEnvUpsertOk "T0" "T1" sampleState).result =
      Except.ok (createSyncResult "T0" "T1" 1 1 2) := by
  constructor
  · exact upsertData_counts_equal_and_doubled.1 [JsVal.obj sampleRow]
      (Except.ok (some 1)) ⟨1, 1, []⟩ rfl
  · exact upsertData_counts_equal_and_doubled.2 sampleCfg ⟨false, false, none⟩
      sampleEnvUpsertOk "T0" "T1" sampleState sampleSchema sampleCmcResult [samplePage]
      (some 1) rfl rfl rfl rfl
      (by
        intro h
        rw [show transformPages (limitPages (SyncOptions.mk false false none).maxPages
          [samplePage]) = [JsVal.obj sampleRow] from rfl] at h
        exact List.noConfusion h)
      rfl
